import Mathlib

/-!
Verification of the trading-rl repository core against its specification.

The development shallowly embeds the two core subsystems:
* `MarketEnv` (src/src/market_env.py) — the market simulation step engine;
* the trading-minute calendar builder and timestamp repairer
  (src/scripts/fix_integer_datetime_to_ts.py);
* the feed normalizer (src/scripts/download_akshare_minute.py).

Python floats are modelled as rationals (`ℚ`), numpy/pandas integer indices
as `Nat`/`Int`, raised exceptions as `Except` errors, and timestamps as
natural numbers (minutes since a Monday epoch for the calendar model).
-/

namespace TradingRL

/-! ### Market simulator (src/src/market_env.py) -/

/-- The Python exceptions the simulator can raise:
`RuntimeError("Environment done. Call reset().")`, a `KeyError` from the
`pos_map[int(action)]` lookup, and a numpy `IndexError` from out-of-bounds
price access. -/
inductive PyErr
  | runtimeError
  | keyError
  | indexError
deriving DecidableEq, Repr

/-- The constructor arguments of `MarketEnv.__init__`: feature matrix,
price series, lookback window and transaction cost rate.  `T` in the source
is `len(self.prices)`. -/
structure MarketEnv where
  features : List (List ℚ)
  prices : List ℚ
  window : Nat
  transaction_cost : ℚ

/-- `self.T = len(self.prices)`. -/
def MarketEnv.T (env : MarketEnv) : Nat := env.prices.length

/-- The mutable state of the simulator: `self.t`, `self.position`,
`self.last_price`, `self.done`. -/
structure EnvState where
  t : Nat
  position : Int
  last_price : ℚ
  done : Bool
deriving DecidableEq

/-- numpy scalar indexing `xs[i]` with Python semantics: negative indices
count from the end; an index out of `[-len, len)` raises `IndexError`. -/
def npGet (xs : List ℚ) (i : Int) : Except PyErr ℚ :=
  let j : Int := if i < 0 then i + xs.length else i
  if h : 0 ≤ j ∧ j < (xs.length : Int) then
    .ok (xs.get ⟨j.toNat, by omega⟩)
  else
    .error .indexError

/-- `self.features[self.t - self.window : self.t]` (slice of the feature
rows).  In every reachable state `t ≥ window`, so the slice starts at the
nonnegative index `t - window` and has length `window`. -/
def MarketEnv.getObs (env : MarketEnv) (t : Nat) : List (List ℚ) :=
  (env.features.drop (t - env.window)).take (t - (t - env.window))

/-- `pos_map = {0: 0, 1: 1, 2: -1}`; a key outside the dict raises
`KeyError`, modelled by `none`. -/
def pos_map (a : Int) : Option Int :=
  if a = 0 then some 0 else if a = 1 then some 1 else if a = 2 then some (-1) else none

/-- The tuple returned by `step`: observation, reward, done flag, and the
`info` dict `{'pnl': pnl, 'tc': tc}`. -/
structure StepOut where
  obs : List (List ℚ)
  reward : ℚ
  done : Bool
  pnl : ℚ
  tc : ℚ

/-- `MarketEnv.reset`: sets `t = window`, `position = 0`,
`last_price = prices[t - 1]`, `done = False` and returns the observation.
The price access uses Python indexing (`t - 1` may be `-1` when
`window = 0`). -/
def MarketEnv.reset (env : MarketEnv) : Except PyErr (EnvState × List (List ℚ)) :=
  match npGet env.prices ((env.window : Int) - 1) with
  | .error e => .error e
  | .ok lp =>
      .ok ({ t := env.window, position := 0, last_price := lp, done := false },
           env.getObs env.window)

/-- `MarketEnv.step`, statement for statement: the `done` guard raises
first; then `new_pos = pos_map[int(action)]` (possible `KeyError`); then
`price = self.prices[self.t]` (possible `IndexError`); then the reward
computation and the state update.  An error reproduces Python's
raise-before-mutation: the state embedded in the result is only produced on
the success path. -/
def MarketEnv.step (env : MarketEnv) (s : EnvState) (action : Int) :
    Except PyErr (EnvState × StepOut) :=
  if s.done then .error .runtimeError
  else
    match pos_map action with
    | none => .error .keyError
    | some new_pos =>
        match npGet env.prices (s.t : Int) with
        | .error e => .error e
        | .ok price =>
            let ret : ℚ := (price - s.last_price) / s.last_price
            let pnl : ℚ := (s.position : ℚ) * ret
            let tc : ℚ :=
              if new_pos ≠ s.position then
                |((new_pos - s.position : Int) : ℚ)| * env.transaction_cost
              else 0
            let reward : ℚ := pnl - tc
            let t' : Nat := s.t + 1
            let done' : Bool := decide (t' ≥ env.T)
            let obs : List (List ℚ) :=
              if done' then (env.getObs t').map (fun row => row.map (fun _ => (0 : ℚ)))
              else env.getObs t'
            .ok ({ t := t', position := new_pos, last_price := price, done := done' },
                 { obs := obs, reward := reward, done := done', pnl := pnl, tc := tc })

/-- In-bounds natural index: `npGet` succeeds and returns the element. -/
theorem npGet_nat_ok (xs : List ℚ) (n : Nat) (h : n < xs.length) :
    npGet xs (n : Int) = .ok (xs.get ⟨n, h⟩) := by
  unfold npGet
  have h0 : ¬ ((n : Int) < 0) := by omega
  simp only [h0, if_false]
  have h1 : (0 : Int) ≤ (n : Int) ∧ (n : Int) < (xs.length : Int) := by omega
  rw [dif_pos h1]
  simp

/-- Out-of-bounds natural index: `npGet` raises `IndexError`. -/
theorem npGet_nat_oob (xs : List ℚ) (n : Nat) (h : xs.length ≤ n) :
    npGet xs (n : Int) = .error .indexError := by
  unfold npGet
  have h0 : ¬ ((n : Int) < 0) := by omega
  simp only [h0, if_false]
  rw [dif_neg]
  omega

/-- C1: in the Stepping state (`window ≤ t < T`, not done) with a valid
action decoding to target position `p'`, `step` succeeds; its reward is
`p * r - c` for `p` the position entering the step,
`r = (price[t] - last_price) / last_price` and
`c = |p' - p| * transaction_cost` when `p' ≠ p` (else `0`); and the info
channel carries exactly this pnl `p * r` and this transaction cost `c`. -/
theorem step_reward_formula (env : MarketEnv) (s : EnvState) (a : Int) (p' : Int)
    (hdone : s.done = false) (hw : env.window ≤ s.t) (ht : s.t < env.T)
    (ha : pos_map a = some p') :
    ∃ obs, MarketEnv.step env s a = .ok
      ({ t := s.t + 1, position := p',
         last_price := env.prices.get ⟨s.t, ht⟩,
         done := decide (env.T ≤ s.t + 1) },
       { obs := obs,
         reward := (s.position : ℚ) *
             ((env.prices.get ⟨s.t, ht⟩ - s.last_price) / s.last_price) -
           (if p' ≠ s.position then
              |((p' - s.position : Int) : ℚ)| * env.transaction_cost
            else 0),
         done := decide (env.T ≤ s.t + 1),
         pnl := (s.position : ℚ) *
             ((env.prices.get ⟨s.t, ht⟩ - s.last_price) / s.last_price),
         tc := (if p' ≠ s.position then
              |((p' - s.position : Int) : ℚ)| * env.transaction_cost
            else 0) }) := by
  refine ⟨if decide (env.T ≤ s.t + 1) then
            (env.getObs (s.t + 1)).map (fun row => row.map (fun _ => (0 : ℚ)))
          else env.getObs (s.t + 1), ?_⟩
  unfold MarketEnv.step
  rw [hdone, if_neg (by simp), ha, npGet_nat_ok env.prices s.t ht]

/-- Witness for C1: the concrete environment `prices = [100, 101, 99]`,
`window = 1`, cost rate `1/100`, fresh state, action `1` (long). -/
theorem step_reward_formula_witness :
    ∃ obs, MarketEnv.step ⟨[[1], [1], [1]], [100, 101, 99], 1, 1/100⟩
        ⟨1, 0, 100, false⟩ 1 = .ok
      ({ t := 2, position := 1, last_price := 101, done := false },
       { obs := obs, reward := -(1/100), done := false, pnl := 0, tc := 1/100 }) := by
  obtain ⟨obs, hstep⟩ :=
    step_reward_formula ⟨[[1], [1], [1]], [100, 101, 99], 1, 1/100⟩
      ⟨1, 0, 100, false⟩ 1 1 rfl (by norm_num) (by norm_num [MarketEnv.T]) rfl
  refine ⟨obs, ?_⟩
  rw [hstep]
  norm_num [MarketEnv.T]

/-- C2: `step` called on a state with `done = true` raises the
simulation-misuse error (`RuntimeError`) for every action.  The `done`
guard is the first statement of `step`, before any state field is read or
written, and an error result carries no updated state: the raise happens
before any mutation. -/
theorem step_when_done_raises (env : MarketEnv) (s : EnvState) (a : Int)
    (h : s.done = true) :
    MarketEnv.step env s a = .error .runtimeError := by
  unfold MarketEnv.step
  rw [h, if_pos rfl]

/-- Witness for C2 at a concrete done state. -/
theorem step_when_done_raises_witness :
    MarketEnv.step ⟨[[1]], [5, 6], 1, 0⟩ ⟨2, 1, 6, true⟩ 0 = .error .runtimeError :=
  step_when_done_raises ⟨[[1]], [5, 6], 1, 0⟩ ⟨2, 1, 6, true⟩ 0 rfl

/-- C9: an action outside `{0, 1, 2}` makes `step` raise `KeyError` from
the `pos_map` lookup.  The lookup precedes the price read and every state
assignment in the source, and the error result carries no updated state, so
the simulator state is unchanged. -/
theorem step_invalid_action_keyerror (env : MarketEnv) (s : EnvState) (a : Int)
    (hdone : s.done = false) (ha : a ≠ 0 ∧ a ≠ 1 ∧ a ≠ 2) :
    MarketEnv.step env s a = .error .keyError := by
  unfold MarketEnv.step
  rw [hdone, if_neg (by simp)]
  have hm : pos_map a = none := by
    unfold pos_map
    rw [if_neg ha.1, if_neg ha.2.1, if_neg ha.2.2]
  rw [hm]

/-- Witness for C9: action `3` on a fresh state. -/
theorem step_invalid_action_keyerror_witness :
    MarketEnv.step ⟨[[1], [1]], [5, 6], 1, 0⟩ ⟨1, 0, 5, false⟩ 3 = .error .keyError :=
  step_invalid_action_keyerror ⟨[[1], [1]], [5, 6], 1, 0⟩ ⟨1, 0, 5, false⟩ 3 rfl
    (by refine ⟨?_, ?_, ?_⟩ <;> decide)

/-- C10: with a price series of length `T = window` (and `window ≥ 1`),
`reset` succeeds with `done = false`, `position = 0`, `t = window`,
returning the full feature window; `done` is never set by `reset`.  The
first subsequent `step` with any valid action then raises the out-of-bounds
`IndexError` on `prices[t]` — not the `RuntimeError` documented for
stepping past termination. -/
theorem reset_never_done_then_indexerror (env : MarketEnv)
    (hT : env.prices.length = env.window) (hw : 1 ≤ env.window) :
    ∃ s obs, MarketEnv.reset env = .ok (s, obs) ∧
      s.done = false ∧ s.position = 0 ∧ s.t = env.window ∧
      obs = env.features.take env.window ∧
      ∀ a : Int, (a = 0 ∨ a = 1 ∨ a = 2) →
        MarketEnv.step env s a = .error .indexError := by
  have hidx : env.window - 1 < env.prices.length := by omega
  have hcast : ((env.window : Int) - 1) = ((env.window - 1 : Nat) : Int) := by omega
  refine ⟨{ t := env.window, position := 0,
            last_price := env.prices.get ⟨env.window - 1, hidx⟩, done := false },
          env.getObs env.window, ?_, rfl, rfl, rfl, ?_, ?_⟩
  · unfold MarketEnv.reset
    rw [hcast, npGet_nat_ok env.prices (env.window - 1) hidx]
  · unfold MarketEnv.getObs
    simp
  · intro a ha
    unfold MarketEnv.step
    simp only [if_neg (by simp : ¬ (false = true))]
    have hm : ∃ p', pos_map a = some p' := by
      rcases ha with h | h | h <;> exact ⟨_, by rw [h]; rfl⟩
    obtain ⟨p', hp'⟩ := hm
    rw [hp', npGet_nat_oob env.prices env.window (by omega)]

/-- Witness for C10: `prices = [5, 6]`, `window = 2`, two feature rows. -/
theorem reset_never_done_then_indexerror_witness :
    ∃ s obs, MarketEnv.reset ⟨[[1], [2]], [5, 6], 2, 0⟩ = .ok (s, obs) ∧
      s.done = false ∧ s.position = 0 ∧ s.t = 2 ∧
      obs = [[(1 : ℚ)], [2]].take 2 ∧
      ∀ a : Int, (a = 0 ∨ a = 1 ∨ a = 2) →
        MarketEnv.step ⟨[[1], [2]], [5, 6], 2, 0⟩ s a = .error .indexError :=
  reset_never_done_then_indexerror ⟨[[1], [2]], [5, 6], 2, 0⟩ rfl (by norm_num)

/-! ### Trading-minute calendar (src/scripts/fix_integer_datetime_to_ts.py)

Timestamps are modelled as minutes since midnight of an epoch Monday: a
calendar date is a count `d` of days since that Monday (so `d % 7 ∈ {5, 6}`
is a weekend) and the minute `09:30` of day `d` is `d * 1440 + 570`. -/

/-- The errors the script can raise: the `IndexError` from `cur_days[-1]`
on an empty list, and the two `SystemExit` branches of `main` (time column
not an integer sequence; not enough timestamps built). -/
inductive ScriptErr
  | idxErr
  | validationErr
  | insufficientErr
deriving DecidableEq, Repr

/-- The minute grid of one day's two sessions:
`pd.date_range("09:30", "11:30", freq="1min")` (minutes 570–690) followed by
`pd.date_range("13:00", "15:00", freq="1min")` (minutes 780–900). -/
def sessionMinutes : List Nat :=
  (List.range 121).map (fun m => 570 + m) ++ (List.range 121).map (fun m => 780 + m)

/-- The trading minutes of day `d` as absolute timestamps. -/
def dayMinutes (d : Nat) : List Nat := sessionMinutes.map (fun m => d * 1440 + m)

/-- `trading_minutes_for_days`: concatenate the per-day session grids in
list order (the empty input yields the empty index). -/
def trading_minutes_for_days (days : List Nat) : List Nat :=
  days.flatMap dayMinutes

/-- `pd.bdate_range(start, end, freq='C')`: the business days (Mon–Fri)
between `start` and `stop` inclusive, ascending; empty when `start > stop`. -/
def bdate_range (start stop : Nat) : List Nat :=
  (List.range' start (stop + 1 - start)).filter (fun d => d % 7 < 5)

/-- The weekend-skipping loop of `extend_days_until_length`:
`while nxt.weekday() >= 5: nxt += 1 day`. -/
def skipWeekend (n : Nat) : Nat :=
  if n % 7 ≥ 5 then skipWeekend (n + 1) else n
termination_by (if n % 7 = 5 then 2 else if n % 7 = 6 then 1 else 0)
decreasing_by
  rename_i h
  have h7 : n % 7 = 5 ∨ n % 7 = 6 := by omega
  rcases h7 with h7 | h7
  · have h8 : (n + 1) % 7 = 6 := by omega
    simp [h7, h8]
  · have h8 : (n + 1) % 7 = 0 := by omega
    simp [h7, h8]

theorem length_sessionMinutes : sessionMinutes.length = 242 := by
  simp [sessionMinutes]

theorem length_dayMinutes (d : Nat) : (dayMinutes d).length = 242 := by
  simp [dayMinutes, length_sessionMinutes]

theorem trading_minutes_append (xs ys : List Nat) :
    trading_minutes_for_days (xs ++ ys) =
      trading_minutes_for_days xs ++ trading_minutes_for_days ys :=
  List.flatMap_append xs ys dayMinutes

theorem length_trading_minutes_snoc (xs : List Nat) (d : Nat) :
    (trading_minutes_for_days (xs ++ [d])).length =
      (trading_minutes_for_days xs).length + 242 := by
  rw [trading_minutes_append, List.length_append]
  simp [trading_minutes_for_days, length_dayMinutes]

/-- `extend_days_until_length`: regenerate the calendar, return it once it
is long enough, otherwise append the next business day after the last
(raising `IndexError` when the day list is empty) and retry.  Termination:
every appended day adds exactly 242 minutes. -/
def extend_days_until_length (cur_days : List Nat) (required_len : Nat) :
    Except ScriptErr (List Nat) :=
  if (trading_minutes_for_days cur_days).length ≥ required_len then
    .ok (trading_minutes_for_days cur_days)
  else
    match cur_days.getLast? with
    | none => .error .idxErr
    | some last => extend_days_until_length (cur_days ++ [skipWeekend (last + 1)]) required_len
termination_by required_len - (trading_minutes_for_days cur_days).length
decreasing_by
  rename_i hlt
  rw [length_trading_minutes_snoc]
  omega

/-- `build_minutes_sequence`: base business-day range, then the base
calendar if long enough, otherwise the extended one; either way truncated
to the required length. -/
def build_minutes_sequence (start_date end_date required_len : Nat) :
    Except ScriptErr (List Nat) :=
  let days := bdate_range start_date end_date
  let ts := trading_minutes_for_days days
  if ts.length ≥ required_len then .ok (ts.take required_len)
  else
    match extend_days_until_length days required_len with
    | .error e => .error e
    | .ok ts_ext => .ok (ts_ext.take required_len)

theorem mem_sessionMinutes (m : Nat) :
    m ∈ sessionMinutes ↔ (570 ≤ m ∧ m ≤ 690) ∨ (780 ≤ m ∧ m ≤ 900) := by
  simp only [sessionMinutes, List.mem_append, List.mem_map, List.mem_range]
  constructor
  · rintro (⟨k, hk, rfl⟩ | ⟨k, hk, rfl⟩) <;> omega
  · rintro (⟨h1, h2⟩ | ⟨h1, h2⟩)
    · exact Or.inl ⟨m - 570, by omega, by omega⟩
    · exact Or.inr ⟨m - 780, by omega, by omega⟩

theorem mem_dayMinutes (x d : Nat) :
    x ∈ dayMinutes d ↔
      ∃ m, ((570 ≤ m ∧ m ≤ 690) ∨ (780 ≤ m ∧ m ≤ 900)) ∧ x = d * 1440 + m := by
  simp only [dayMinutes, List.mem_map]
  constructor
  · rintro ⟨m, hm, rfl⟩
    exact ⟨m, (mem_sessionMinutes m).1 hm, rfl⟩
  · rintro ⟨m, hm, rfl⟩
    exact ⟨m, (mem_sessionMinutes m).2 hm, rfl⟩

theorem pairwise_sessionMinutes : sessionMinutes.Pairwise (· < ·) := by
  rw [sessionMinutes, List.pairwise_append]
  refine ⟨?_, ?_, ?_⟩
  · rw [List.pairwise_map]
    exact (List.pairwise_lt_range 121).imp (by omega)
  · rw [List.pairwise_map]
    exact (List.pairwise_lt_range 121).imp (by omega)
  · intro a ha b hb
    simp only [List.mem_map, List.mem_range] at ha hb
    obtain ⟨i, hi, rfl⟩ := ha
    obtain ⟨j, hj, rfl⟩ := hb
    omega

theorem pairwise_dayMinutes (d : Nat) : (dayMinutes d).Pairwise (· < ·) := by
  rw [dayMinutes, List.pairwise_map]
  exact pairwise_sessionMinutes.imp (by omega)

theorem pairwise_trading_minutes (days : List Nat) (hd : days.Pairwise (· < ·)) :
    (trading_minutes_for_days days).Pairwise (· < ·) := by
  induction days with
  | nil => simp [trading_minutes_for_days]
  | cons d rest ih =>
      rw [List.pairwise_cons] at hd
      rw [show d :: rest = [d] ++ rest from rfl, trading_minutes_append,
        List.pairwise_append]
      refine ⟨?_, ih hd.2, ?_⟩
      · simpa [trading_minutes_for_days] using pairwise_dayMinutes d
      · intro a ha b hb
        simp only [trading_minutes_for_days, List.mem_flatMap,
          List.mem_singleton] at ha hb
        obtain ⟨d0, rfl, had⟩ := ha
        obtain ⟨d', hd', hbd⟩ := hb
        obtain ⟨m, hm, rfl⟩ := (mem_dayMinutes _ _).1 had
        obtain ⟨m', hm', rfl⟩ := (mem_dayMinutes _ _).1 hbd
        have : d0 < d' := hd.1 d' hd'
        omega

theorem mem_bdate_range (d s e : Nat) :
    d ∈ bdate_range s e ↔ s ≤ d ∧ d ≤ e ∧ d % 7 < 5 := by
  simp only [bdate_range, List.mem_filter, List.mem_range', decide_eq_true_eq]
  constructor
  · rintro ⟨⟨i, hi, rfl⟩, hb⟩
    omega
  · rintro ⟨h1, h2, h3⟩
    exact ⟨⟨d - s, by omega, by omega⟩, h3⟩

theorem pairwise_bdate_range (s e : Nat) : (bdate_range s e).Pairwise (· < ·) :=
  List.Pairwise.sublist (List.filter_sublist _)
    (List.pairwise_lt_range' s (e + 1 - s) 1 Nat.one_pos)

theorem skipWeekend_ge (n : Nat) : n ≤ skipWeekend n := by
  induction n using skipWeekend.induct with
  | case1 x h ih =>
      rw [skipWeekend, if_pos h]
      omega
  | case2 x h =>
      rw [skipWeekend, if_neg h]

theorem skipWeekend_business (n : Nat) : (skipWeekend n) % 7 < 5 := by
  induction n using skipWeekend.induct with
  | case1 x h ih =>
      rw [skipWeekend, if_pos h]
      exact ih
  | case2 x h =>
      rw [skipWeekend, if_neg h]
      omega

theorem mem_le_getLast {l : List Nat} (hp : l.Pairwise (· < ·)) (hne : l ≠ [])
    (a : Nat) (ha : a ∈ l) : a ≤ l.getLast hne := by
  rw [← List.dropLast_append_getLast hne] at ha
  rw [← List.dropLast_append_getLast hne, List.pairwise_append] at hp
  rcases List.mem_append.1 ha with h1 | h1
  · exact le_of_lt (hp.2.2 a h1 _ (List.mem_singleton_self _))
  · rw [List.mem_singleton] at h1
    omega

/-- C5: on a date range with at least one business day, the base calendar
`trading_minutes_for_days (bdate_range s e)` is strictly increasing, and a
timestamp is emitted exactly when it is `d * 1440 + m` for some business
day `d` of the range and some whole minute `m` of the 09:30–11:30 or
13:00–15:00 session (so every emitted time-of-day lies inside the two
sessions, at one-minute spacing, and every such grid point is emitted). -/
theorem calendar_base_strict_and_in_sessions (s e : Nat)
    (hne : bdate_range s e ≠ []) :
    (trading_minutes_for_days (bdate_range s e)).Pairwise (· < ·) ∧
    ∀ x, x ∈ trading_minutes_for_days (bdate_range s e) ↔
      ∃ d, (s ≤ d ∧ d ≤ e ∧ d % 7 < 5) ∧
        ∃ m, ((570 ≤ m ∧ m ≤ 690) ∨ (780 ≤ m ∧ m ≤ 900)) ∧ x = d * 1440 + m := by
  refine ⟨pairwise_trading_minutes _ (pairwise_bdate_range s e), fun x => ?_⟩
  rw [trading_minutes_for_days, List.mem_flatMap]
  constructor
  · rintro ⟨d, hd, hx⟩
    exact ⟨d, (mem_bdate_range d s e).1 hd, (mem_dayMinutes x d).1 hx⟩
  · rintro ⟨d, hd, hm⟩
    exact ⟨d, (mem_bdate_range d s e).2 hd, (mem_dayMinutes x d).2 hm⟩

/-- Witness for C5 at the one-day range consisting of the epoch Monday. -/
theorem calendar_base_strict_and_in_sessions_witness :
    (trading_minutes_for_days (bdate_range 0 0)).Pairwise (· < ·) ∧
    ∀ x, x ∈ trading_minutes_for_days (bdate_range 0 0) ↔
      ∃ d, (0 ≤ d ∧ d ≤ 0 ∧ d % 7 < 5) ∧
        ∃ m, ((570 ≤ m ∧ m ≤ 690) ∨ (780 ≤ m ∧ m ≤ 900)) ∧ x = d * 1440 + m :=
  calendar_base_strict_and_in_sessions 0 0 (by decide)

/-- The extension loop on a non-empty, strictly increasing business-day
list always succeeds: its result is the session grid of some extended
strictly increasing business-day list, with at least the required number
of minutes. -/
theorem extend_spec (days : List Nat) (L : Nat)
    (hne : days ≠ []) (hsorted : days.Pairwise (· < ·))
    (hbus : ∀ d ∈ days, d % 7 < 5) :
    ∃ days', days'.Pairwise (· < ·) ∧ (∀ d ∈ days', d % 7 < 5) ∧
      extend_days_until_length days L = .ok (trading_minutes_for_days days') ∧
      L ≤ (trading_minutes_for_days days').length := by
  generalize hk : L - (trading_minutes_for_days days).length = k
  induction k using Nat.strong_induction_on generalizing days with
  | _ k ih =>
      rw [extend_days_until_length]
      by_cases hlen : (trading_minutes_for_days days).length ≥ L
      · rw [if_pos hlen]
        exact ⟨days, hsorted, hbus, rfl, hlen⟩
      · rw [if_neg hlen]
        have hlast : days.getLast? = some (days.getLast hne) :=
          List.getLast?_eq_getLast days hne
        rw [hlast]
        have hge : days.getLast hne + 1 ≤ skipWeekend (days.getLast hne + 1) :=
          skipWeekend_ge _
        have hlt : ∀ a ∈ days, a < skipWeekend (days.getLast hne + 1) := by
          intro a ha
          have := mem_le_getLast hsorted hne a ha
          omega
        refine ih (L - (trading_minutes_for_days
            (days ++ [skipWeekend (days.getLast hne + 1)])).length) ?_
          (days ++ [skipWeekend (days.getLast hne + 1)]) (by simp) ?_ ?_ rfl
        · rw [length_trading_minutes_snoc]
          omega
        · rw [List.pairwise_append]
          exact ⟨hsorted, List.pairwise_singleton _ _,
            fun a ha b hb => by rw [List.mem_singleton] at hb; subst hb; exact hlt a ha⟩
        · intro d hd
          rcases List.mem_append.1 hd with h1 | h1
          · exact hbus d h1
          · rw [List.mem_singleton] at h1
            subst h1
            exact skipWeekend_business _

/-- C6: from any non-empty, strictly increasing business-day list and any
required length `L ≥ 1`, the extension loop terminates with a calendar
(`.ok`, never an error) of length at least `L` that is strictly
increasing, and its truncation to the first `L` elements is still strictly
increasing.  Termination of the loop itself is the totality of
`extend_days_until_length`, whose measure decreases by the 242 minutes each
appended business day contributes. -/
theorem extend_terminates_with_enough (days : List Nat) (L : Nat)
    (hne : days ≠ []) (hsorted : days.Pairwise (· < ·))
    (hbus : ∀ d ∈ days, d % 7 < 5) (hL : 1 ≤ L) :
    ∃ ts, extend_days_until_length days L = .ok ts ∧
      L ≤ ts.length ∧ ts.Pairwise (· < ·) ∧ (ts.take L).Pairwise (· < ·) := by
  obtain ⟨days', hp, hb, heq, hlen⟩ := extend_spec days L hne hsorted hbus
  have hpair := pairwise_trading_minutes days' hp
  exact ⟨_, heq, hlen, hpair, List.Pairwise.sublist (List.take_sublist _ _) hpair⟩

/-- Witness for C6: the singleton day list `[0]` and required length 1. -/
theorem extend_terminates_with_enough_witness :
    ∃ ts, extend_days_until_length [0] 1 = .ok ts ∧
      1 ≤ ts.length ∧ ts.Pairwise (· < ·) ∧ (ts.take 1).Pairwise (· < ·) :=
  extend_terminates_with_enough [0] 1 (by simp)
    (List.pairwise_singleton _ _) (by simp) (by omega)

/-- C7: when the base range contains no business day (`bdate_range` is
empty), `build_minutes_sequence` never loops (it is a total function): for
required length 0 it yields the empty calendar, and for any positive
required length it signals inability to proceed with the `IndexError`
raised by `cur_days[-1]` in the extension loop. -/
theorem build_empty_base_signals (s e L : Nat) (h : bdate_range s e = []) :
    (L = 0 → build_minutes_sequence s e L = .ok []) ∧
    (1 ≤ L → build_minutes_sequence s e L = .error .idxErr) := by
  constructor
  · rintro rfl
    simp [build_minutes_sequence, h, trading_minutes_for_days]
  · intro hL
    rw [build_minutes_sequence]
    have h0 : trading_minutes_for_days (bdate_range s e) = [] := by
      rw [h]; rfl
    rw [h0]
    rw [if_neg (by simp; omega)]
    rw [extend_days_until_length, h0, if_neg (by simp; omega), h]
    rfl

/-- Witness for C7 at the empty range consisting of the single Saturday
day 5, for required lengths 0 and 1. -/
theorem build_empty_base_signals_witness :
    build_minutes_sequence 5 5 0 = .ok [] ∧
    build_minutes_sequence 5 5 1 = .error .idxErr :=
  ⟨(build_empty_base_signals 5 5 0 (by decide)).1 rfl,
   (build_empty_base_signals 5 5 1 (by decide)).2 (by omega)⟩

/-- When the base range has at least one business day,
`build_minutes_sequence` succeeds and returns the first `L` minutes of the
session grid of some strictly increasing business-day list with at least
`L` minutes. -/
theorem build_spec (s e L : Nat) (hbase : bdate_range s e ≠ []) :
    ∃ days', days'.Pairwise (· < ·) ∧ (∀ d ∈ days', d % 7 < 5) ∧
      build_minutes_sequence s e L = .ok ((trading_minutes_for_days days').take L) ∧
      L ≤ (trading_minutes_for_days days').length := by
  rw [build_minutes_sequence]
  by_cases hlen : (trading_minutes_for_days (bdate_range s e)).length ≥ L
  · rw [if_pos hlen]
    exact ⟨bdate_range s e, pairwise_bdate_range s e,
      fun d hd => ((mem_bdate_range d s e).1 hd).2.2, rfl, hlen⟩
  · rw [if_neg hlen]
    obtain ⟨days', hp, hb, heq, hl⟩ := extend_spec (bdate_range s e) L hbase
      (pairwise_bdate_range s e) (fun d hd => ((mem_bdate_range d s e).1 hd).2.2)
    rw [heq]
    exact ⟨days', hp, hb, rfl, hl⟩

/-! ### Timestamp repairer (`main` of src/scripts/fix_integer_datetime_to_ts.py) -/

/-- One cell of the CSV's `datetime` column, classified by what
`dropna().astype(int)` does with it: a missing value (removed by
`dropna`), a value `astype(int)` converts, or a value on which
`astype(int)` raises. -/
inductive DTCell
  | na
  | intLike (v : Int)
  | nonInt
deriving DecidableEq, Repr

/-- Lines 70–74 of the script: `df['datetime'].dropna().astype(int)`
succeeds — and then every sampled value trivially satisfies
`isinstance(x, (int, np.integer))` — exactly when no non-null cell fails
integer conversion.  The integer values themselves are never inspected. -/
def is_int_seq {α : Type} (df : List (DTCell × α)) : Bool :=
  df.all (fun r => r.1 ≠ DTCell.nonInt)

/-- Insertion step of the positional sort used to model
`df.sort_index()`. -/
def insertKeyed {α : Type} (x : Nat × α) : List (Nat × α) → List (Nat × α)
  | [] => [x]
  | y :: ys => if x.1 ≤ y.1 then x :: y :: ys else y :: insertKeyed x ys

/-- `df.sort_index()`: sort the rows by their (new) timestamp index.  On
the strictly increasing indices produced here any correct sort is the
identity, so the sorting algorithm's tie behaviour is immaterial. -/
def sort_index {α : Type} : List (Nat × α) → List (Nat × α)
  | [] => []
  | x :: xs => insertKeyed x (sort_index xs)

/-- The repair body of `main` (lines 69–93): validate the `datetime`
column, build at least `len(df)` trading minutes from the date range
(`SystemExit` if too few come back), overwrite the column positionally
with `ts[:n]`, set it as the index and sort.  A row is `(new timestamp,
untouched other values)`; the synthetic integers are discarded by the
overwrite. -/
def repair {α : Type} (df : List (DTCell × α)) (start_date end_date : Nat) :
    Except ScriptErr (List (Nat × α)) :=
  if is_int_seq df = false then .error .validationErr
  else
    match build_minutes_sequence start_date end_date df.length with
    | .error e => .error e
    | .ok ts =>
        if ts.length < df.length then .error .insufficientErr
        else .ok (sort_index ((ts.take df.length).zip (df.map Prod.snd)))

theorem insertKeyed_of_le {α : Type} (x : Nat × α) (l : List (Nat × α))
    (h : ∀ y ∈ l, x.1 ≤ y.1) : insertKeyed x l = x :: l := by
  cases l with
  | nil => rfl
  | cons y ys =>
      rw [insertKeyed, if_pos (h y (List.mem_cons_self y ys))]

theorem sort_index_of_sorted {α : Type} (l : List (Nat × α))
    (h : l.Pairwise (fun a b => a.1 ≤ b.1)) : sort_index l = l := by
  induction l with
  | nil => rfl
  | cons x xs ih =>
      rw [List.pairwise_cons] at h
      rw [sort_index, ih h.2, insertKeyed_of_le x xs h.1]

theorem pairwise_zip_left {α β : Type} {R : α → α → Prop}
    (l1 : List α) (l2 : List β) (h : l1.Pairwise R) :
    (l1.zip l2).Pairwise (fun a b => R a.1 b.1) := by
  induction l1 generalizing l2 with
  | nil => simp
  | cons x xs ih =>
      cases l2 with
      | nil => simp
      | cons y ys =>
          rw [List.zip_cons_cons, List.pairwise_cons]
          rw [List.pairwise_cons] at h
          exact ⟨fun p hp => h.1 p.1 (List.of_mem_zip hp).1, ih ys h.2⟩

/-- The extension loop can only fail with the `IndexError` of
`cur_days[-1]`. -/
theorem extend_error_is_idx (cur_days : List Nat) (L : Nat) (er : ScriptErr)
    (h : extend_days_until_length cur_days L = .error er) : er = .idxErr := by
  induction cur_days, L using extend_days_until_length.induct with
  | case1 cur L hc =>
      rw [extend_days_until_length, if_pos hc] at h
      simp at h
  | case2 cur L hc hnone =>
      rw [extend_days_until_length, if_neg hc, hnone] at h
      simpa using h.symm
  | case3 cur L hc last hlast ih =>
      rw [extend_days_until_length, if_neg hc, hlast] at h
      exact ih h

/-- `build_minutes_sequence` can only fail with that same `IndexError`. -/
theorem build_error_is_idx (s e L : Nat) (er : ScriptErr)
    (h : build_minutes_sequence s e L = .error er) : er = .idxErr := by
  rw [build_minutes_sequence] at h
  by_cases hc : (trading_minutes_for_days (bdate_range s e)).length ≥ L
  · rw [if_pos hc] at h
    simp at h
  · rw [if_neg hc] at h
    cases hx : extend_days_until_length (bdate_range s e) L with
    | error e2 =>
        rw [hx] at h
        dsimp at h
        cases h
        exact extend_error_is_idx _ _ _ hx
    | ok ts =>
        rw [hx] at h
        simp at h

/-- C3: on a dataset whose `datetime` column passes the integer check and a
date range with at least one business day, `repair` succeeds with exactly
`N = len(df)` rows; the new index is strictly increasing, each of its
entries is a trading minute of a business day, and the non-time values are
unchanged and in the original row order (the synthetic integers appear
nowhere in the result). -/
theorem repair_rebinds_positionally {α : Type} (df : List (DTCell × α)) (s e : Nat)
    (hvalid : is_int_seq df = true) (hbase : bdate_range s e ≠ []) :
    ∃ out : List (Nat × α), repair df s e = .ok out ∧
      out.length = df.length ∧
      out.map Prod.snd = df.map Prod.snd ∧
      (out.map Prod.fst).Pairwise (· < ·) ∧
      ∀ k ∈ out.map Prod.fst, ∃ d m, d % 7 < 5 ∧
        ((570 ≤ m ∧ m ≤ 690) ∨ (780 ≤ m ∧ m ≤ 900)) ∧ k = d * 1440 + m := by
  obtain ⟨days', hp, hb, heq, hlen⟩ := build_spec s e df.length hbase
  have hts_len : ((trading_minutes_for_days days').take df.length).length = df.length := by
    rw [List.length_take]
    omega
  have hts_pair : ((trading_minutes_for_days days').take df.length).Pairwise (· < ·) :=
    List.Pairwise.sublist (List.take_sublist _ _) (pairwise_trading_minutes days' hp)
  have hvlen : (df.map Prod.snd).length = df.length := List.length_map df Prod.snd
  refine ⟨((trading_minutes_for_days days').take df.length).zip (df.map Prod.snd),
    ?_, ?_, ?_, ?_, ?_⟩
  · rw [repair, if_neg (by simp [hvalid]), heq]
    dsimp only
    rw [if_neg (by omega), List.take_of_length_le (le_of_eq hts_len)]
    rw [sort_index_of_sorted]
    exact (pairwise_zip_left _ _ hts_pair).imp (fun h => le_of_lt h)
  · rw [List.length_zip, hts_len, hvlen, Nat.min_self]
  · exact List.map_snd_zip _ _ (by omega)
  · rw [List.map_fst_zip _ _ (by omega)]
    exact hts_pair
  · intro k hk
    rw [List.map_fst_zip _ _ (by omega)] at hk
    have hk2 : k ∈ trading_minutes_for_days days' := (List.take_sublist _ _).subset hk
    rw [trading_minutes_for_days, List.mem_flatMap] at hk2
    obtain ⟨d, hd, hkd⟩ := hk2
    obtain ⟨m, hm, rfl⟩ := (mem_dayMinutes _ _).1 hkd
    exact ⟨d, m, hb d hd, hm, rfl⟩

/-- Witness for C3: two rows with synthetic integers 0, 1 repaired over the
one-business-day range day 0. -/
theorem repair_rebinds_positionally_witness :
    ∃ out : List (Nat × Nat),
      repair [(DTCell.intLike 0, 10), (DTCell.intLike 1, 20)] 0 0 = .ok out ∧
      out.length = [(DTCell.intLike 0, 10), (DTCell.intLike 1, 20)].length ∧
      out.map Prod.snd = [(DTCell.intLike 0, 10), (DTCell.intLike 1, 20)].map Prod.snd ∧
      (out.map Prod.fst).Pairwise (· < ·) ∧
      ∀ k ∈ out.map Prod.fst, ∃ d m, d % 7 < 5 ∧
        ((570 ≤ m ∧ m ≤ 690) ∨ (780 ≤ m ∧ m ≤ 900)) ∧ k = d * 1440 + m :=
  repair_rebinds_positionally [(DTCell.intLike 0, 10), (DTCell.intLike 1, 20)] 0 0
    rfl (by decide)

set_option maxRecDepth 10000 in
/-- Counterexample to C4 as stated: the column `[2, 1]` is an integer but
non-monotonic sequence, yet `repair` does not fail with the validation
error — it rebinds the rows to minutes 570 and 571 of day 0. -/
theorem repair_accepts_nonmonotonic_integers :
    repair [(DTCell.intLike 2, (10 : Nat)), (DTCell.intLike 1, 20)] 0 0 =
      .ok [(570, 10), (571, 20)] := by
  rfl

/-- C4 amended: the repairer fails with its validation error exactly when
some non-null value of the time column is not integer-like (the
`astype(int)` conversion raises); the integer values — in particular their
monotonicity — are never checked. -/
theorem repair_validation_error_iff {α : Type} (df : List (DTCell × α)) (s e : Nat) :
    repair df s e = .error .validationErr ↔ ∃ r ∈ df, r.1 = DTCell.nonInt := by
  constructor
  · intro h
    by_contra hno
    push_neg at hno
    have hv : is_int_seq df = true := by
      rw [is_int_seq, List.all_eq_true]
      intro r hr
      simpa using hno r hr
    rw [repair, if_neg (by simp [hv])] at h
    cases hx : build_minutes_sequence s e df.length with
    | error ex =>
        rw [hx] at h
        dsimp at h
        cases h
        have := build_error_is_idx s e df.length _ hx
        simp at this
    | ok ts =>
        rw [hx] at h
        dsimp at h
        by_cases hlt : ts.length < df.length
        · rw [if_pos hlt] at h
          simp at h
        · rw [if_neg hlt] at h
          simp at h
  · rintro ⟨r, hr, hcell⟩
    rw [repair, if_pos]
    rw [is_int_seq, List.all_eq_false]
    exact ⟨r, hr, by simp [hcell]⟩

/-! ### Feed normalizer
(`parse_and_normalize_minute_df` of src/scripts/download_akshare_minute.py)

Feed timestamps are seconds since midnight of an epoch day: the request
day is a day index `day` and second `s` of that day is `day * 86400 + s`.
A raw cell is classified by what the pandas parsers do with its stripped
string form; the classification is the model of `pd.to_datetime` /
`pd.to_numeric` on that text. -/

/-- One cell of the raw payload:
* `dtFull t` — text containing a date separator or several tokens;
  `pd.to_datetime` parses it directly to timestamp `t`;
* `dtTime sec` — bare time-of-day text; `day_str + ' ' + v` parses to
  second `sec` of the day, and parsing it without a date anchors it to
  pandas' current date (`pandasToday` in the model);
* `numStr n` — numeric text; `pd.to_numeric` yields `n` (whole seconds),
  datetime parsing yields NaT;
* `badStr` — parses under no rule;
* `num q` — a numeric value (price/volume data); `pd.to_numeric` yields `q`;
* `na` — missing value. -/
inductive Cell
  | dtFull (t : Nat)
  | dtTime (sec : Nat)
  | numStr (n : Nat)
  | badStr
  | num (q : ℚ)
  | na
deriving DecidableEq, Repr

/-- A raw tabular payload: column names and rows of cells (row `i`,
column `j` is `rows[i][j]`).  Frames are modelled with pandas' default
integer index, so the `reset_index` fallback of the source contributes a
column named `index`, which matches no datetime candidate. -/
structure RawDF where
  header : List String
  rows : List (List Cell)

/-- The table the normalizer returns: the kept value-column names (the
canonical OHLCV names that were present) and the rows, each a parsed
timestamp with the coerced numeric values of the kept columns. -/
structure NormDF where
  valueCols : List String
  rows : List (Nat × List (Option ℚ))
deriving DecidableEq

/-- `str.lower()`. -/
def lowerName (s : String) : String := String.mk (s.data.map Char.toLower)

/-- The date pandas anchors a bare time-of-day to when it is parsed
without an accompanying date (an arbitrary fixed day in the model). -/
def pandasToday : Nat := 20000

/-- `lower_map = {c.lower(): c for c in df.columns}` followed by
`cand in lower_map`: the dict keeps the last column with a given
lowercase form, so look up the last matching index. -/
def lowerIdx (header : List String) (cand : String) : Option Nat :=
  header.enum.foldl (fun acc p => if lowerName p.2 = cand then some p.1 else acc) none

/-- Lines 51–55: try the candidates `['datetime', 'time', '时间', 'date']`
in order against the lowercased column names; first hit wins. -/
def findDTCol (header : List String) : Option Nat :=
  ["datetime", "time", "时间", "date"].foldl
    (fun acc cand => match acc with
      | some i => some i
      | none => lowerIdx header cand) none

/-- The datetime-column cell of a row (a short row reads as missing). -/
def rowDT (dtc : Nat) (row : List Cell) : Cell := (row.get? dtc).getD Cell.na

/-- Lines 77–78: sample the first five values; the column "contains a
date" when any sampled value has a date separator or several tokens. -/
def contains_date (cells : List Cell) : Bool :=
  (cells.take 5).any (fun c => match c with | Cell.dtFull _ => true | _ => false)

/-- `pd.to_datetime(v, errors='coerce')` on a stripped cell. -/
def parse_full (c : Cell) : Option Nat :=
  match c with
  | .dtFull t => some t
  | .dtTime sec => some (pandasToday * 86400 + sec)
  | _ => none

/-- `pd.to_datetime(day_str + ' ' + v, errors='coerce')`: only a bare
time-of-day yields a timestamp; prefixing a full datetime, numeric or
unparseable text with a second date gives NaT. -/
def parse_with_day (day : Nat) (c : Cell) : Option Nat :=
  match c with
  | .dtTime sec => some (day * 86400 + sec)
  | _ => none

/-- `pd.to_numeric(v, errors='coerce')` on a cell of the time column,
in whole seconds. -/
def to_num_secs (c : Cell) : Option Nat :=
  match c with
  | .numStr n => some n
  | _ => none

/-- `pd.to_numeric(v, errors='coerce')` on a cell of a value column. -/
def to_num_cell (c : Cell) : Option ℚ :=
  match c with
  | .numStr n => some (n : ℚ)
  | .num q => some q
  | _ => none

/-- Lines 76–103: the parsed datetime column.  First pass: direct parse
when the sample contains a date, else parse with the day prefix.  If more
than half the results are NaT and the column has numeric values, the whole
column is replaced by `pd.to_datetime(day) + pd.to_timedelta(nums, 's')`
(NaT where non-numeric). -/
def dtColumn (day : Nat) (cells : List Cell) : List (Option Nat) :=
  let dt1 := if contains_date cells then cells.map parse_full
             else cells.map (parse_with_day day)
  if 2 * (List.count none dt1) > dt1.length then
    if cells.any (fun c => (to_num_secs c).isSome) then
      cells.map (fun c => (to_num_secs c).map (fun n => day * 86400 + n))
    else dt1
  else dt1

/-- Line 106: `df.dropna(subset=['datetime'])` — the rows whose time value
parsed, paired with their timestamps. -/
def parsedRows (df : RawDF) (dtc : Nat) (day : Nat) : List (Nat × List Cell) :=
  ((dtColumn day (df.rows.map (rowDT dtc))).zip df.rows).filterMap
    (fun p => p.1.map (fun t => (t, p.2)))

/-- Lines 111–128: the single `df.rename` call combining the local-market
labels with the capitalized English variants; the `en not in df.columns`
guards consult the pre-rename columns. -/
def rename1 (header : List String) : List String :=
  header.map (fun c =>
    if c = "开盘" then "open"
    else if c = "最高" then "high"
    else if c = "最低" then "low"
    else if c = "收盘" then "close"
    else if c = "成交量" then "volume"
    else if c = "Open" then (if header.contains "open" then c else "open")
    else if c = "High" then (if header.contains "high" then c else "high")
    else if c = "Low" then (if header.contains "low" then c else "low")
    else if c = "Close" then (if header.contains "close" then c else "close")
    else if c = "Volume" then (if header.contains "volume" then c else "volume")
    else c)

/-- The `lowermap` entry for `want`: the last column whose lowercase form
is `want` (dict comprehension keeps the last). -/
def lowerLast (header : List String) (want : String) : Option String :=
  header.foldl (fun acc c => if lowerName c = want then some c else acc) none

/-- One iteration of the loop in lines 133–135: rename the lowercase
match of `want` to `want` unless a column named `want` already exists. -/
def rename3step (header : List String) (want : String) : List String :=
  if header.contains want then header
  else
    match lowerLast header want with
    | some orig => header.map (fun c => if c = orig then want else c)
    | none => header

/-- Lines 132–135: the sequential lowercase fixups.  The source consults a
`lowermap` computed once before the loop; recomputing it each iteration is
equivalent because an earlier iteration only renames columns whose
lowercase form is an earlier `want`. -/
def rename3 (header : List String) : List String :=
  ["open", "high", "low", "close", "volume"].foldl rename3step header

/-- Line 138: the value columns kept, in canonical order. -/
def keepCols (header2 : List String) : List String :=
  ["open", "high", "low", "close", "volume"].filter (fun c => header2.contains c)

/-- Line 149: the price columns present. -/
def price_cols (header2 : List String) : List String :=
  ["open", "high", "low", "close"].filter (fun c => header2.contains c)

/-- Lines 138–146: project a row onto the kept columns, coercing each
value with `pd.to_numeric` (renames do not move data, so a renamed
column's cells sit at its original position). -/
def projRow (header2 : List String) (keep : List String) (row : List Cell) :
    List (Option ℚ) :=
  keep.map (fun c => (row.get? (header2.indexOf c)).bind to_num_cell)

/-- `parse_and_normalize_minute_df(df_raw, day_str)`, in source order:
give up (`None`) on an empty payload, on failure to find a time column
(the `reset_index` retry adds only a column named `index`, never a
candidate), or when no row's time value parses; otherwise rename, keep
`datetime` plus the present OHLCV columns, sort by the new index, coerce
to numbers and drop rows with a missing price — and return the table even
when no price column is present at all (`dropna(subset=[])` drops
nothing).  Row filtering is applied before projection; as both read the
same cells this agrees with the source's drop-after-project order. -/
def parse_and_normalize_minute_df (df : RawDF) (day : Nat) : Option NormDF :=
  if df.rows.isEmpty || df.header.isEmpty then none
  else
    match findDTCol df.header with
    | none => none
    | some dtc =>
        let pr := parsedRows df dtc day
        if pr.isEmpty then none
        else
          let header2 := rename3 (rename1 df.header)
          let keep := keepCols header2
          let pcs := price_cols header2
          let sorted := sort_index pr
          let kept := sorted.filter (fun r =>
            pcs.all (fun c => ((r.2.get? (header2.indexOf c)).bind to_num_cell).isSome))
          some { valueCols := keep,
                 rows := kept.map (fun r => (r.1, projRow header2 keep r.2)) }

/-- Counterexample to C8 as stated: a payload whose columns are only the
time column `时间` and the volume column `成交量` — after column-name
mapping none of open/high/low/close is present — yet the normalizer
returns a non-null table (with only a volume column), not a null
result. -/
theorem normalize_without_price_columns_not_null :
    parse_and_normalize_minute_df
        { header := ["时间", "成交量"],
          rows := [[Cell.dtTime 34200, Cell.num 100],
                   [Cell.dtTime 34260, Cell.num 200]] } 3 =
      some { valueCols := ["volume"],
             rows := [(3 * 86400 + 34200, [some 100]),
                      (3 * 86400 + 34260, [some 200])] } := by
  rfl

/-- C8 amended: the normalizer yields a null result exactly when the raw
payload is empty, no time column is detected among the candidates, or no
row's time value parses under any rule.  The presence of price columns
plays no part: a payload lacking all of open/high/low/close after mapping
still yields a non-null table (`dropna` over the empty price-column subset
drops nothing). -/
theorem normalize_none_iff (df : RawDF) (day : Nat) :
    parse_and_normalize_minute_df df day = none ↔
      df.rows = [] ∨ df.header = [] ∨ findDTCol df.header = none ∨
      ∃ dtc, findDTCol df.header = some dtc ∧ parsedRows df dtc day = [] := by
  rw [parse_and_normalize_minute_df]
  by_cases h1 : df.rows.isEmpty || df.header.isEmpty
  · rw [if_pos h1]
    simp only [Bool.or_eq_true, List.isEmpty_iff] at h1
    simp [h1]
    tauto
  · rw [if_neg h1]
    simp only [Bool.or_eq_true, List.isEmpty_iff, not_or] at h1
    cases hdt : findDTCol df.header with
    | none => simp [h1.1, h1.2, hdt]
    | some dtc =>
        dsimp only
        by_cases h2 : (parsedRows df dtc day).isEmpty
        · rw [if_pos h2]
          rw [List.isEmpty_iff] at h2
          simp [h1.1, h1.2, hdt, h2]
        · rw [if_neg h2]
          rw [List.isEmpty_iff] at h2
          simp [h1.1, h1.2, hdt, h2]


